import Mathlib

/-!
Shallow embedding of the `todo_cli` task store (`src/task.rs`,
`src/todolist.rs`, `src/exporter.rs`).

Modelling conventions:
* Rust `i32` values are Lean `Int`s; every `i32` arithmetic operation of the
  source is wrapped with `wrap32`, the two's-complement reduction into
  `[-2^31, 2^31)`.  This is the release-profile semantics of Rust integer
  overflow (wrapping); the debug profile would instead panic at the same
  spots, so every wrap point below is also a divergence point of the claim
  it refutes.
* `chrono::DateTime<Local>` values are never inspected by the program, only
  created (`Local::now()`), stored and rendered; they are modelled as the
  `String` of their rendered form, and `Local::now()` becomes an explicit
  `now : String` argument of the operations that call it.
* `PathBuf` is modelled as `String`.
* Operations that contain a potential panic site (`Vec::remove`, which
  panics when the index is out of bounds) return `Option`, `none` standing
  for a panic; operations with no panic site are total.
* File I/O: every mutating operation ends with `save_tasks()`, whose only
  effect is on the file system, never on the in-memory store; the claims
  under verification are about the in-memory sequence and about the bytes
  an exporter produces, so exporters are modelled as functions from the
  store to the written content.
-/

namespace TodoCli

/-- `PriorityEnum` from `src/task.rs`. -/
inductive PriorityEnum where
  | high
  | medium
  | low
deriving DecidableEq, Repr

/-- `Task` from `src/task.rs`.  `created_at`/`completed_at` hold the rendered
form of the `DateTime<Local>` (see module conventions). -/
structure Task where
  id : Int
  title : String
  done : Bool
  created_at : String
  completed_at : Option String
  priority : Option PriorityEnum
deriving DecidableEq, Repr

/-- `TodoList` from `src/todolist.rs`: the task sequence plus the bound path
(the path carries `#[serde(skip)]`, so it is runtime configuration, not
data). -/
structure TodoList where
  tasks : List Task
  path : String
deriving DecidableEq, Repr

/-- Two's-complement reduction of an integer into the `i32` range
`[-2^31, 2^31)`: the value an overflowing `i32` operation produces in a
release build. -/
def wrap32 (x : Int) : Int :=
  (x + 2 ^ 31) % 2 ^ 32 - 2 ^ 31

/-- `usize::try_from(j)` for an `i32` value `j` on a 64-bit target: succeeds
exactly when `j` is non-negative. -/
def usize_try_from (j : Int) : Option Nat :=
  if 0 ≤ j then some j.toNat else none

/-- `Vec::remove(index)`: panics (`none`) when `index` is out of bounds,
otherwise removes and returns the shortened vector. -/
def vec_remove (l : List Task) (index : Nat) : Option (List Task) :=
  if index < l.length then some (l.eraseIdx index) else none

/-- `TodoList::new` (`src/todolist.rs` lines 20-27): empty task list bound to
`path` (the immediate `save_tasks()` touches only the file system). -/
def TodoList.new (path : String) : TodoList :=
  { tasks := [], path := path }

/-- `TodoList::add_task` (`src/todolist.rs` lines 29-44): `last_task_id`
starts at 1 and becomes `last.id + 1` (an `i32` addition, hence `wrap32`)
when the list has a last element; a fresh pending task with that id is
pushed. -/
def TodoList.add_task (st : TodoList) (title : String)
    (priority : Option PriorityEnum) (now : String) : TodoList :=
  let last_task_id : Int :=
    match st.tasks.getLast? with
    | some last_task => wrap32 (last_task.id + 1)
    | none => 1
  { st with
    tasks := st.tasks ++
      [{ id := last_task_id, title := title, done := false,
         created_at := now, completed_at := none, priority := priority }] }

/-- `TodoList::remove_task` (`src/todolist.rs` lines 46-53): computes
`i - 1` in `i32` (hence `wrap32`), converts to `usize`, and only when
`get_mut(index)` finds an element calls `Vec::remove(index)`. -/
def TodoList.remove_task (st : TodoList) (i : Int) : Option TodoList :=
  match usize_try_from (wrap32 (i - 1)) with
  | some index =>
    match st.tasks[index]? with
    | some _ =>
      (vec_remove st.tasks index).map (fun ts => { st with tasks := ts })
    | none => some st
  | none => some st

/-- `TodoList::complete_task` (`src/todolist.rs` lines 73-81): same index
conversion as `remove_task`; when `get_mut(index)` finds a task, sets
`done := true` and `completed_at := Some(Local::now())`. -/
def TodoList.complete_task (now : String) (st : TodoList) (i : Int) :
    TodoList :=
  match usize_try_from (wrap32 (i - 1)) with
  | some index =>
    match st.tasks[index]? with
    | some task =>
      { st with
        tasks := st.tasks.set index
          { task with done := true, completed_at := some now } }
    | none => st
  | none => st

/-- `TodoList::reset_tasks` (`src/todolist.rs` lines 83-89): clears `done`
and `completed_at` on every task. -/
def TodoList.reset_tasks (st : TodoList) : TodoList :=
  { st with
    tasks := st.tasks.map
      (fun task => { task with done := false, completed_at := none }) }

/-- `CompletedTasksIter` (`src/todolist.rs` lines 147-157): yields the tasks
with `done = true` in sequence order. -/
def TodoList.completed_tasks (st : TodoList) : List Task :=
  st.tasks.filter (fun task => task.done)

/-- `PendingTasksIter` (`src/todolist.rs` lines 159-169): yields the tasks
with `done = false` in sequence order. -/
def TodoList.pending_tasks (st : TodoList) : List Task :=
  st.tasks.filter (fun task => !task.done)

/-- One checklist line of `MarkdownExporter::export`
(`src/exporter.rs` lines 63-77), faithful to the source: the `x` is pushed
when `!task.done`. -/
def task_markdown_line (task : Task) : String :=
  "- [" ++ (if !task.done then "x" else "") ++ "] " ++ task.title ++
    " - Created at " ++ task.created_at ++
    (match task.completed_at with
     | some completed => " - Completed at " ++ completed
     | none => "") ++ "\n"

/-- The full content `MarkdownExporter::export` writes to
`path.with_extension("md")`. -/
def markdown_export (st : TodoList) : String :=
  String.join (st.tasks.map task_markdown_line)

/-- Repeated `add_task` with the given titles, no priority, a fixed clock:
the shape of every `add`-only usage scenario. -/
def TodoList.add_titles (st : TodoList) (titles : List String)
    (now : String) : TodoList :=
  titles.foldl (fun acc title => acc.add_task title none now) st

/-- The task invariant of the spec: a task's completion timestamp exists
exactly when its `done` flag is set. -/
abbrev completed_iff_done (ts : List Task) : Prop :=
  ∀ t ∈ ts, t.completed_at.isSome = t.done

/-- Stores reachable from a fresh empty store by the four mutations of
`src/todolist.rs` (no external load of a hand-written file). -/
inductive Reachable : TodoList → Prop where
  | new (path : String) : Reachable (TodoList.new path)
  | add (st : TodoList) (title : String) (prio : Option PriorityEnum)
      (now : String) : Reachable st → Reachable (st.add_task title prio now)
  | remove (st st' : TodoList) (i : Int) : Reachable st →
      st.remove_task i = some st' → Reachable st'
  | complete (st : TodoList) (now : String) (i : Int) : Reachable st →
      Reachable (TodoList.complete_task now st i)
  | reset (st : TodoList) : Reachable st → Reachable st.reset_tasks

/-- Reachability as in `Reachable`, but every `add` step is required not to
overflow the 32-bit id: it is never applied to a store whose last task
carries `id = i32::MAX = 2^31 - 1`. -/
inductive ReachableNoOverflow : TodoList → Prop where
  | new (path : String) : ReachableNoOverflow (TodoList.new path)
  | add (st : TodoList) (title : String) (prio : Option PriorityEnum)
      (now : String) : ReachableNoOverflow st →
      (∀ last, st.tasks.getLast? = some last → last.id ≠ 2 ^ 31 - 1) →
      ReachableNoOverflow (st.add_task title prio now)
  | remove (st st' : TodoList) (i : Int) : ReachableNoOverflow st →
      st.remove_task i = some st' → ReachableNoOverflow st'
  | complete (st : TodoList) (now : String) (i : Int) :
      ReachableNoOverflow st →
      ReachableNoOverflow (TodoList.complete_task now st i)
  | reset (st : TodoList) : ReachableNoOverflow st →
      ReachableNoOverflow st.reset_tasks

/-- JSON values, the data serde_json prints and parses.  The store is
embedded at this level: `serde_json::to_string_pretty` followed by
`serde_json::from_str` transports a value through its text form faithfully
(that printer/parser pair belongs to the serde_json library, not to this
repository), so saving and loading compose the value-level maps below. -/
inductive Json where
  | null
  | bool (b : Bool)
  | num (n : Int)
  | str (s : String)
  | arr (xs : List Json)
  | obj (fields : List (String × Json))

/-- serde encoding of `PriorityEnum`: a plain enum serializes as the string
of the variant name. -/
def priority_to_json : PriorityEnum → Json
  | .high => .str "High"
  | .medium => .str "Medium"
  | .low => .str "Low"

/-- serde decoding of `PriorityEnum`. -/
def priority_from_json : Json → Option PriorityEnum
  | .str "High" => some .high
  | .str "Medium" => some .medium
  | .str "Low" => some .low
  | _ => none

/-- serde encoding of `Option<T>`: `None` is `null`, `Some(x)` is `x`. -/
def option_to_json (f : α → Json) : Option α → Json
  | none => .null
  | some x => f x

/-- serde decoding of `Option<T>`: `null` is `None`, anything else must
decode as a `T`. -/
def option_from_json (f : Json → Option α) : Json → Option (Option α)
  | .null => some none
  | j => (f j).map some

/-- serde encoding of `Task` (`src/task.rs`): an object with the six fields
in declaration order; `created_at`/`completed_at` serialize as their
rendered strings (chrono uses the ISO-8601 text form). -/
def task_to_json (t : Task) : Json :=
  .obj [("id", .num t.id), ("title", .str t.title), ("done", .bool t.done),
        ("created_at", .str t.created_at),
        ("completed_at", option_to_json Json.str t.completed_at),
        ("priority", option_to_json priority_to_json t.priority)]

/-- Field lookup in a serde-produced object. -/
def jlookup (fields : List (String × Json)) (key : String) : Option Json :=
  (fields.find? (fun kv => kv.1 == key)).map (fun kv => kv.2)

/-- Decode a JSON string. -/
def as_str : Json → Option String
  | .str s => some s
  | _ => none

/-- Decode a JSON integer. -/
def as_int : Json → Option Int
  | .num n => some n
  | _ => none

/-- Decode a JSON boolean. -/
def as_bool : Json → Option Bool
  | .bool b => some b
  | _ => none

/-- serde decoding of `Task`: every field is looked up by name and must
decode at its type. -/
def task_from_json (j : Json) : Option Task :=
  match j with
  | .obj fields => do
    let id ← (jlookup fields "id").bind as_int
    let title ← (jlookup fields "title").bind as_str
    let done ← (jlookup fields "done").bind as_bool
    let created ← (jlookup fields "created_at").bind as_str
    let completed ←
      (jlookup fields "completed_at").bind (option_from_json as_str)
    let prio ←
      (jlookup fields "priority").bind (option_from_json priority_from_json)
    some { id := id, title := title, done := done, created_at := created,
           completed_at := completed, priority := prio }
  | _ => none

/-- Decode a JSON array of tasks elementwise. -/
def tasks_from_json : List Json → Option (List Task)
  | [] => some []
  | j :: rest => do
    let t ← task_from_json j
    let ts ← tasks_from_json rest
    some (t :: ts)

/-- serde encoding of `TodoList` (`src/todolist.rs`): one `tasks` field; the
`path` field carries `#[serde(skip)]` and is not serialized.  This is the
value `JsonExporter::export` (`src/exporter.rs` lines 26-31) pretty-prints
and writes to the bound path. -/
def json_export (st : TodoList) : Json :=
  .obj [("tasks", .arr (st.tasks.map task_to_json))]

/-- serde decoding of `TodoList`: the skipped `path` field defaults to the
empty path. -/
def todolist_from_json (j : Json) : Option TodoList :=
  match j with
  | .obj fields =>
    match jlookup fields "tasks" with
    | some (.arr xs) =>
      (tasks_from_json xs).map (fun ts => { tasks := ts, path := "" })
    | _ => none
  | _ => none

/-- `TodoList::load_tasks` (`src/todolist.rs` lines 114-124): `content` is
the parsed form of the file at `path` (`none` when the read fails);
deserialization failure falls back to a fresh empty store; on success the
path is rebound to the supplied argument. -/
def load_tasks (content : Option Json) (path : String) : TodoList :=
  match content with
  | some j =>
    match todolist_from_json j with
    | some st => { st with path := path }
    | none => TodoList.new path
  | none => TodoList.new path

/-- A pending sample task. -/
def sampleTask : Task :=
  { id := 1, title := "task 1", done := false, created_at := "t0",
    completed_at := none, priority := none }

/-- A completed sample task. -/
def sampleDone : Task :=
  { id := 2, title := "task 2", done := true, created_at := "t1",
    completed_at := some "t2", priority := some .high }

/-- A sample store holding one pending and one completed task. -/
def sampleStore : TodoList :=
  { tasks := [sampleTask, sampleDone], path := "todo.json" }

/-- A store with `2^31` tasks: the smallest sequence on which
`remove(i32::MIN)` finds the wrapped index `2^31 - 1` in bounds. -/
def hugeStore : TodoList :=
  { tasks := List.replicate (2 ^ 31) sampleTask, path := "todo.json" }

/-- The store built by `2^32 + 1` consecutive adds from an empty store: the
smallest pure-`add` run on which a 32-bit id recurs. -/
def overflowStore : TodoList :=
  (TodoList.new "todo.json").add_titles (List.replicate (2 ^ 32 + 1) "t") "t0"

/-- `wrap32` is the identity on the `i32` range. -/
lemma wrap32_eq_self (x : Int) (h1 : -(2 ^ 31) ≤ x) (h2 : x < 2 ^ 31) :
    wrap32 x = x := by
  have h : (x + 2 ^ 31) % 2 ^ 32 = x + 2 ^ 31 :=
    Int.emod_eq_of_lt (by omega) (by omega)
  unfold wrap32
  omega

/-- Characterization of `complete_task` at a valid position: the task found
at the zero-based index is replaced by its done/timestamped update. -/
lemma complete_task_eq_set (st : TodoList) (now : String) (p : Int)
    (old : Task) (h1 : 1 ≤ p) (h2 : p < 2 ^ 31)
    (h3 : st.tasks[(p - 1).toNat]? = some old) :
    TodoList.complete_task now st p =
      { st with tasks := st.tasks.set (p - 1).toNat ({ old with done := true, completed_at := some now }) } := by
  have hw : wrap32 (p - 1) = p - 1 := wrap32_eq_self _ (by omega) (by omega)
  unfold TodoList.complete_task usize_try_from
  rw [hw, if_pos (by omega : (0 : Int) ≤ p - 1)]
  show (match st.tasks[(p - 1).toNat]? with
    | some task =>
      { st with tasks := st.tasks.set (p - 1).toNat ({ task with done := true, completed_at := some now }) }
    | none => st) = _
  rw [h3]

/-- `complete_task` either leaves the sequence alone (invalid position) or
replaces one found task by its done/timestamped update. -/
lemma complete_task_result (now : String) (st : TodoList) (i : Int) :
    (TodoList.complete_task now st i).path = st.path ∧
    ((TodoList.complete_task now st i).tasks = st.tasks ∨
      ∃ index old, st.tasks[index]? = some old ∧
        (TodoList.complete_task now st i).tasks = st.tasks.set index
          ({ old with done := true, completed_at := some now })) := by
  cases husize : usize_try_from (wrap32 (i - 1)) with
  | none =>
    constructor <;> simp [TodoList.complete_task, husize]
  | some index =>
    cases hget : st.tasks[index]? with
    | none =>
      constructor <;> simp [TodoList.complete_task, husize, hget]
    | some old =>
      refine ⟨?_, Or.inr ⟨index, old, hget, ?_⟩⟩ <;>
        simp [TodoList.complete_task, husize, hget]

/-- `remove_task` never panics and either leaves the sequence alone or
erases one index. -/
lemma remove_task_result {st st' : TodoList} {i : Int}
    (hr : st.remove_task i = some st') :
    st'.path = st.path ∧
    (st'.tasks = st.tasks ∨ ∃ k, st'.tasks = st.tasks.eraseIdx k) := by
  cases husize : usize_try_from (wrap32 (i - 1)) with
  | none =>
    simp only [TodoList.remove_task, husize, Option.some_inj] at hr
    subst hr
    exact ⟨rfl, Or.inl rfl⟩
  | some index =>
    cases hget : st.tasks[index]? with
    | none =>
      simp only [TodoList.remove_task, husize, hget, Option.some_inj] at hr
      subst hr
      exact ⟨rfl, Or.inl rfl⟩
    | some old =>
      have hlen : index < st.tasks.length :=
        (List.getElem?_eq_some_iff.mp hget).1
      simp only [TodoList.remove_task, husize, hget, vec_remove,
        if_pos hlen, Option.map_some', Option.some_inj] at hr
      subst hr
      exact ⟨rfl, Or.inr ⟨index, rfl⟩⟩

/-- Claim C4: for every store and every valid 1-based position `p` (a task
is found at zero-based index `p - 1`), `complete(p)` replaces that task by
the same task with `done = true` and `completed_at` overwritten to the
current time — on every call, with no regard to the task's previous `done`
or `completed_at` (so it is not idempotent in `completed_at`). -/
theorem complete_task_overwrites (st : TodoList) (now : String) (p : Int)
    (old : Task) (h1 : 1 ≤ p) (h2 : p < 2 ^ 31)
    (h3 : st.tasks[(p - 1).toNat]? = some old) :
    TodoList.complete_task now st p =
      { st with tasks := st.tasks.set (p - 1).toNat ({ old with done := true, completed_at := some now }) } :=
  complete_task_eq_set st now p old h1 h2 h3

/-- Witness for C4: completing position 2 of the sample store — whose task
is already done with `completed_at = some "t2"` — overwrites the timestamp
to the new clock value. -/
theorem complete_task_overwrites_witness :
    (1 : Int) ≤ 2 ∧ (2 : Int) < 2 ^ 31 ∧
      sampleStore.tasks[((2 : Int) - 1).toNat]? = some sampleDone ∧
      TodoList.complete_task "t9" sampleStore 2 =
        { sampleStore with
          tasks := sampleStore.tasks.set ((2 : Int) - 1).toNat
            ({ sampleDone with done := true, completed_at := some "t9" }) } :=
  ⟨by norm_num, by norm_num, by decide,
    complete_task_overwrites sampleStore "t9" 2 sampleDone (by norm_num)
      (by norm_num) (by decide)⟩

/-- Claim C10: `complete(p)` at a valid position changes only the `done` and
`completed_at` fields of the task at zero-based index `p - 1`: the bound
path, the sequence length, every other position, and that task's `id`,
`title`, `created_at` and `priority` are unchanged. -/
theorem complete_task_frame (st : TodoList) (now : String) (p : Int)
    (old : Task) (h1 : 1 ≤ p) (h2 : p < 2 ^ 31)
    (h3 : st.tasks[(p - 1).toNat]? = some old) :
    (TodoList.complete_task now st p).path = st.path ∧
    (TodoList.complete_task now st p).tasks.length = st.tasks.length ∧
    (∀ j : Nat, j ≠ (p - 1).toNat →
      (TodoList.complete_task now st p).tasks[j]? = st.tasks[j]?) ∧
    (TodoList.complete_task now st p).tasks[(p - 1).toNat]? =
      some { id := old.id, title := old.title, done := true,
             created_at := old.created_at, completed_at := some now,
             priority := old.priority } := by
  rw [complete_task_eq_set st now p old h1 h2 h3]
  refine ⟨rfl, by simp, fun j hj => ?_, ?_⟩
  · exact List.getElem?_set_ne (Ne.symm hj)
  · rw [List.getElem?_set_self', h3]
    rfl

/-- Witness for C10 at position 2 of the sample store. -/
theorem complete_task_frame_witness :
    (1 : Int) ≤ 2 ∧ (2 : Int) < 2 ^ 31 ∧
      sampleStore.tasks[((2 : Int) - 1).toNat]? = some sampleDone ∧
      (TodoList.complete_task "t9" sampleStore 2).path = sampleStore.path ∧
      (TodoList.complete_task "t9" sampleStore 2).tasks.length
        = sampleStore.tasks.length ∧
      (TodoList.complete_task "t9" sampleStore 2).tasks[0]?
        = sampleStore.tasks[0]? ∧
      (TodoList.complete_task "t9" sampleStore 2).tasks[((2 : Int) - 1).toNat]?
        = some { id := sampleDone.id, title := sampleDone.title, done := true,
                 created_at := sampleDone.created_at,
                 completed_at := some "t9",
                 priority := sampleDone.priority } := by
  have h := complete_task_frame sampleStore "t9" 2 sampleDone (by norm_num)
    (by norm_num) (by decide)
  exact ⟨by norm_num, by norm_num, by decide, h.1, h.2.1,
    h.2.2.1 0 (by decide), h.2.2.2⟩

/-- Claim C9: after `reset()` every task has `done = false` and
`completed_at = none`, the pending view returns the whole (reset) sequence
in order, and the completed view is empty. -/
theorem reset_clears_and_views (st : TodoList) :
    (∀ t ∈ st.reset_tasks.tasks, t.done = false ∧ t.completed_at = none) ∧
    st.reset_tasks.pending_tasks = st.reset_tasks.tasks ∧
    st.reset_tasks.completed_tasks = [] := by
  refine ⟨?_, ?_, ?_⟩
  · intro t ht
    unfold TodoList.reset_tasks at ht
    simp only [List.mem_map] at ht
    obtain ⟨x, _, rfl⟩ := ht
    exact ⟨rfl, rfl⟩
  · unfold TodoList.pending_tasks TodoList.reset_tasks
    simp [List.filter_map, Function.comp_def]
  · unfold TodoList.completed_tasks TodoList.reset_tasks
    simp [List.filter_map, Function.comp_def]

/-- Claim C5: each of the four mutations, applied to a store every task of
which satisfies the invariant that `completed_at` is present exactly when
`done` is set, yields a store every task of which still satisfies it. -/
theorem mutations_preserve_completed_iff_done (st : TodoList)
    (title now : String) (prio : Option PriorityEnum) (i : Int)
    (h : completed_iff_done st.tasks) :
    completed_iff_done (st.add_task title prio now).tasks ∧
    (∀ st', st.remove_task i = some st' → completed_iff_done st'.tasks) ∧
    completed_iff_done (TodoList.complete_task now st i).tasks ∧
    completed_iff_done st.reset_tasks.tasks := by
  refine ⟨?_, ?_, ?_, ?_⟩
  · intro t ht
    unfold TodoList.add_task at ht
    simp only [List.mem_append, List.mem_singleton] at ht
    rcases ht with ht | rfl
    · exact h t ht
    · rfl
  · intro st' hr t ht
    rcases (remove_task_result hr).2 with he | ⟨k, he⟩
    · exact h t (he ▸ ht)
    · exact h t ((List.eraseIdx_sublist st.tasks k).subset (he ▸ ht))
  · intro t ht
    rcases (complete_task_result now st i).2 with he | ⟨index, old, hget, he⟩
    · exact h t (he ▸ ht)
    · rcases List.mem_or_eq_of_mem_set (he ▸ ht) with hmem | rfl
      · exact h t hmem
      · rfl
  · intro t ht
    unfold TodoList.reset_tasks at ht
    simp only [List.mem_map] at ht
    obtain ⟨x, _, rfl⟩ := ht
    rfl

/-- Witness for C5: the invariant holds on the sample store and on each of
the four mutation results there. -/
theorem mutations_preserve_completed_iff_done_witness :
    completed_iff_done sampleStore.tasks ∧
    completed_iff_done (sampleStore.add_task "x" none "n").tasks ∧
    completed_iff_done
      ({ tasks := [sampleDone], path := "todo.json" } : TodoList).tasks ∧
    completed_iff_done (TodoList.complete_task "n" sampleStore 1).tasks ∧
    completed_iff_done sampleStore.reset_tasks.tasks := by
  have h := mutations_preserve_completed_iff_done sampleStore "x" "n" none 1
    (by decide)
  exact ⟨by decide, h.1, h.2.1 _ (by decide), h.2.2.1, h.2.2.2⟩

/-- Reduction of `remove_task` once the index conversion succeeded. -/
lemma remove_task_eval (st : TodoList) (p : Int) (index : Nat)
    (hu : usize_try_from (wrap32 (p - 1)) = some index) :
    st.remove_task p =
      match st.tasks[index]? with
      | some _ =>
        (vec_remove st.tasks index).map (fun ts => { st with tasks := ts })
      | none => some st := by
  unfold TodoList.remove_task
  rw [hu]

/-- Reduction of `remove_task` when the index conversion failed. -/
lemma remove_task_of_usize_none (st : TodoList) (p : Int)
    (hu : usize_try_from (wrap32 (p - 1)) = none) :
    st.remove_task p = some st := by
  unfold TodoList.remove_task
  rw [hu]

/-- The index conversion on an in-range non-negative zero-based index. -/
lemma usize_try_from_of_nonneg (j : Int) (h : 0 ≤ j) :
    usize_try_from j = some j.toNat := by
  unfold usize_try_from
  rw [if_pos h]

/-- Full case analysis of `remove_task` over the `i32` argument range. -/
lemma remove_task_spec (st : TodoList) (p : Int)
    (hlo : -(2 ^ 31) ≤ p) (hhi : p < 2 ^ 31) :
    (∀ old, st.tasks[(p - 1).toNat]? = some old → 1 ≤ p →
      st.remove_task p =
        some { st with tasks := st.tasks.eraseIdx (p - 1).toNat }) ∧
    (p ≤ 0 → -(2 ^ 31) < p → st.remove_task p = some st) ∧
    ((st.tasks.length : Int) < p → st.remove_task p = some st) ∧
    (p = -(2 ^ 31) → st.tasks.length ≤ 2 ^ 31 - 1 →
      st.remove_task p = some st) ∧
    (p = -(2 ^ 31) → 2 ^ 31 ≤ st.tasks.length →
      st.remove_task p =
        some { st with tasks := st.tasks.eraseIdx (2 ^ 31 - 1) }) := by
  refine ⟨?_, ?_, ?_, ?_, ?_⟩
  · intro old hget hp1
    have hw : wrap32 (p - 1) = p - 1 := wrap32_eq_self _ (by omega) (by omega)
    have hu : usize_try_from (wrap32 (p - 1)) = some (p - 1).toNat := by
      rw [hw]
      exact usize_try_from_of_nonneg _ (by omega)
    rw [remove_task_eval st p _ hu, hget]
    unfold vec_remove
    rw [if_pos (List.getElem?_eq_some_iff.mp hget).1]
    rfl
  · intro hp0 hpmin
    have hw : wrap32 (p - 1) = p - 1 := wrap32_eq_self _ (by omega) (by omega)
    refine remove_task_of_usize_none st p ?_
    rw [hw]
    unfold usize_try_from
    rw [if_neg (by omega)]
  · intro hlen
    have hp1 : 1 ≤ p := by omega
    have hw : wrap32 (p - 1) = p - 1 := wrap32_eq_self _ (by omega) (by omega)
    have hu : usize_try_from (wrap32 (p - 1)) = some (p - 1).toNat := by
      rw [hw]
      exact usize_try_from_of_nonneg _ (by omega)
    rw [remove_task_eval st p _ hu,
      List.getElem?_eq_none (by omega : st.tasks.length ≤ (p - 1).toNat)]
  · intro hpmin hlen
    subst hpmin
    have hw : wrap32 (-(2 ^ 31) - 1) = 2 ^ 31 - 1 := by decide
    have hu : usize_try_from (wrap32 (-(2 ^ 31) - 1)) = some (2 ^ 31 - 1) := by
      rw [hw]
      rw [usize_try_from_of_nonneg _ (by norm_num)]
      rfl
    rw [remove_task_eval st _ _ hu,
      List.getElem?_eq_none (by omega : st.tasks.length ≤ 2 ^ 31 - 1)]
  · intro hpmin hlen
    subst hpmin
    have hw : wrap32 (-(2 ^ 31) - 1) = 2 ^ 31 - 1 := by decide
    have hu : usize_try_from (wrap32 (-(2 ^ 31) - 1)) = some (2 ^ 31 - 1) := by
      rw [hw]
      rw [usize_try_from_of_nonneg _ (by norm_num)]
      rfl
    have hlt : 2 ^ 31 - 1 < st.tasks.length := by omega
    rw [remove_task_eval st _ _ hu, List.getElem?_eq_getElem hlt]
    unfold vec_remove
    rw [if_pos hlt]
    rfl

/-- Claim C1 (amended): `remove(p)` converts `p` to a zero-based index by an
`i32` subtraction.  At a valid position it deletes exactly that element.
For out-of-range `p` — zero, negative but greater than `i32::MIN`, or
beyond the length — the sequence is unchanged.  The one exception is
`p = i32::MIN`: the subtraction wraps to `i32::MAX = 2^31 - 1`, so the
sequence is unchanged only when it holds at most `2^31 - 1` tasks, and on a
sequence of at least `2^31` tasks the element at index `2^31 - 1` is
deleted. -/
theorem remove_task_positional (st : TodoList) (p : Int)
    (hlo : -(2 ^ 31) ≤ p) (hhi : p < 2 ^ 31) :
    (∀ old, st.tasks[(p - 1).toNat]? = some old → 1 ≤ p →
      st.remove_task p =
        some { st with tasks := st.tasks.eraseIdx (p - 1).toNat }) ∧
    (p ≤ 0 → -(2 ^ 31) < p → st.remove_task p = some st) ∧
    ((st.tasks.length : Int) < p → st.remove_task p = some st) ∧
    (p = -(2 ^ 31) → st.tasks.length ≤ 2 ^ 31 - 1 →
      st.remove_task p = some st) ∧
    (p = -(2 ^ 31) → 2 ^ 31 ≤ st.tasks.length →
      st.remove_task p =
        some { st with tasks := st.tasks.eraseIdx (2 ^ 31 - 1) }) :=
  remove_task_spec st p hlo hhi

/-- Witness for C1: deleting position 1 of the sample store removes exactly
the first task, and the out-of-range calls 0 and 3 leave it unchanged. -/
theorem remove_task_positional_witness :
    -(2 ^ 31) ≤ (1 : Int) ∧ (1 : Int) < 2 ^ 31 ∧
      sampleStore.remove_task 1 =
        some { sampleStore with
               tasks := sampleStore.tasks.eraseIdx ((1 : Int) - 1).toNat } ∧
      sampleStore.remove_task 0 = some sampleStore ∧
      sampleStore.remove_task 3 = some sampleStore := by
  have h1 := (remove_task_positional sampleStore 1 (by norm_num)
    (by norm_num)).1 sampleTask (by decide) (by norm_num)
  have h0 := (remove_task_positional sampleStore 0 (by norm_num)
    (by norm_num)).2.1 (by norm_num) (by norm_num)
  have h3 := (remove_task_positional sampleStore 3 (by norm_num)
    (by norm_num)).2.2.1 (by decide)
  exact ⟨by norm_num, by norm_num, h1, h0, h3⟩

/-- Counterexample for C1 as stated: `p = i32::MIN` is negative, yet on a
store of `2^31` tasks `remove(i32::MIN)` does not leave the sequence
unchanged — the wrapped index `2^31 - 1` is in bounds and that element is
deleted. -/
theorem remove_task_out_of_range_counterexample :
    hugeStore.remove_task (-(2 ^ 31)) ≠ some hugeStore := by
  have hlen : hugeStore.tasks.length = 2 ^ 31 := by
    show (List.replicate (2 ^ 31) sampleTask).length = 2 ^ 31
    rw [List.length_replicate]
  have h := (remove_task_spec hugeStore (-(2 ^ 31)) (by norm_num)
    (by norm_num)).2.2.2.2 rfl (by omega)
  intro hc
  rw [h] at hc
  have h2 := congrArg (fun s => s.tasks.length) (Option.some.inj hc)
  simp only [List.length_eraseIdx] at h2
  rw [hlen] at h2
  norm_num at h2

/-- Claim C6: neither `remove` nor `complete` panics, for any `i32` argument
(`0`, negatives, values beyond the length, `i32::MIN`).  `remove_task`
contains the program's one panic site, `Vec::remove`; it always returns a
store.  `complete_task` calls only the checked conversion and the guarded
`get_mut`, so it is total by construction; the second conjunct shows its
run always completes into one of its two defined outcomes (no-op, or a
single in-bounds update). -/
theorem remove_and_complete_never_panic (st : TodoList) (i : Int)
    (now : String) :
    (∃ st1, st.remove_task i = some st1) ∧
    ((TodoList.complete_task now st i).tasks = st.tasks ∨
      ∃ index old, st.tasks[index]? = some old ∧
        (TodoList.complete_task now st i).tasks = st.tasks.set index
          ({ old with done := true, completed_at := some now })) := by
  refine ⟨?_, (complete_task_result now st i).2⟩
  cases husize : usize_try_from (wrap32 (i - 1)) with
  | none => exact ⟨st, remove_task_of_usize_none st i husize⟩
  | some index =>
    cases hget : st.tasks[index]? with
    | none =>
      refine ⟨st, ?_⟩
      rw [remove_task_eval st i index husize, hget]
    | some old =>
      refine ⟨{ st with tasks := st.tasks.eraseIdx index }, ?_⟩
      rw [remove_task_eval st i index husize, hget]
      unfold vec_remove
      rw [if_pos (List.getElem?_eq_some_iff.mp hget).1]
      rfl

/-- `wrap32` absorbs an inner `wrap32` under addition. -/
lemma wrap32_wrap32_add (a b : Int) : wrap32 (wrap32 a + b) = wrap32 (a + b) := by
  unfold wrap32
  omega

/-- The task sequence `add_task` produces, with the bound of the `let`
inlined. -/
lemma add_task_tasks (st : TodoList) (t : String)
    (prio : Option PriorityEnum) (now : String) :
    (st.add_task t prio now).tasks = st.tasks ++
      [{ id := match st.tasks.getLast? with
                | some last_task => wrap32 (last_task.id + 1)
                | none => 1,
         title := t, done := false, created_at := now,
         completed_at := none, priority := prio }] := rfl

/-- One `add_titles` step from the right. -/
lemma add_titles_concat (st : TodoList) (ts : List String) (t now : String) :
    st.add_titles (ts ++ [t]) now = (st.add_titles ts now).add_task t none now := by
  unfold TodoList.add_titles
  rw [List.foldl_append]
  rfl

/-- The ids of a pure-`add` run from an empty store: the task at zero-based
index `j` carries id `wrap32 (j + 1)`. -/
lemma add_titles_ids (path now : String) (titles : List String) :
    ((TodoList.new path).add_titles titles now).tasks.map Task.id
      = (List.range titles.length).map (fun j : Nat => wrap32 ((j : Int) + 1)) := by
  induction titles using List.reverseRecOn with
  | nil => rfl
  | append_singleton ts t ih =>
    rw [add_titles_concat, add_task_tasks, List.map_append,
      List.length_append, List.length_singleton, List.range_succ,
      List.map_append, ih, List.append_right_inj]
    simp only [List.map_cons, List.map_nil, List.cons.injEq, and_true]
    cases hl : ((TodoList.new path).add_titles ts now).tasks.getLast? with
    | none =>
      have hnil : ((TodoList.new path).add_titles ts now).tasks = [] :=
        List.getLast?_eq_none_iff.mp hl
      have hn : ts.length = 0 := by
        have h0 := ih.symm
        rw [hnil] at h0
        simp only [List.map_nil, List.map_eq_nil_iff, List.range_eq_nil] at h0
        exact h0
      rw [hn]
      decide
    | some last =>
      have hmap := congrArg List.getLast? ih
      rw [List.getLast?_map, hl] at hmap
      cases hn : ts.length with
      | zero =>
        rw [hn] at hmap
        simp at hmap
      | succ m =>
        rw [hn, List.range_succ, List.map_append] at hmap
        simp only [List.map_cons, List.map_nil] at hmap
        rw [List.getLast?_concat] at hmap
        have hid : last.id = wrap32 ((m : Int) + 1) := by
          simpa using hmap
        show wrap32 (last.id + 1) = wrap32 (((m + 1 : Nat) : Int) + 1)
        rw [hid, wrap32_wrap32_add]
        push_cast
        ring_nf

/-- Claim C2 (amended): starting from an empty store with no removal, the
k-th added task (1-based) receives id = k for every `k ≤ 2^31 - 1`;
equivalently `add` assigns `1` on an empty sequence and otherwise the last
task's id plus one computed in `i32`, which wraps to `i32::MIN` once the
last id is `i32::MAX` — so the unbounded claim fails from the `2^31`-th
add on. -/
theorem add_from_empty_kth_id (path now : String) (titles : List String)
    (k : Nat) (h1 : k < titles.length) (h2 : (k : Int) + 1 < 2 ^ 31) :
    (((TodoList.new path).add_titles titles now).tasks.map Task.id)[k]?
      = some ((k : Int) + 1) := by
  rw [add_titles_ids, List.getElem?_map, List.getElem?_range h1]
  simp only [Option.map_some']
  rw [wrap32_eq_self _ (by omega) h2]

/-- Witness for C2: with two adds from empty, the task at zero-based index 1
(the 2nd added) has id 2. -/
theorem add_from_empty_kth_id_witness :
    1 < (["a", "b"] : List String).length ∧ ((1 : Nat) : Int) + 1 < 2 ^ 31 ∧
      (((TodoList.new "todo.json").add_titles ["a", "b"] "t0").tasks.map
        Task.id)[1]? = some (((1 : Nat) : Int) + 1) :=
  ⟨by decide, by decide,
    add_from_empty_kth_id "todo.json" "t0" ["a", "b"] 1 (by decide)
      (by decide)⟩

/-- Counterexample for C2 as stated: after `2^31` adds from empty with no
removal, the `2^31`-th added task (zero-based index `2^31 - 1`) carries id
`-2^31`, not `2^31`: the `i32` id assignment wraps at `i32::MAX`. -/
theorem add_from_empty_kth_id_counterexample :
    (((TodoList.new "todo.json").add_titles (List.replicate (2 ^ 31) "t")
        "t0").tasks.map Task.id)[2 ^ 31 - 1]? = some (-(2 ^ 31)) ∧
    (((TodoList.new "todo.json").add_titles (List.replicate (2 ^ 31) "t")
        "t0").tasks.map Task.id)[2 ^ 31 - 1]? ≠ some ((2 ^ 31 : Int)) := by
  have h : (((TodoList.new "todo.json").add_titles
      (List.replicate (2 ^ 31) "t") "t0").tasks.map
        Task.id)[2 ^ 31 - 1]? = some (-(2 ^ 31)) := by
    rw [add_titles_ids, List.length_replicate, List.getElem?_map,
      List.getElem?_range (by norm_num)]
    simp only [Option.map_some']
    norm_num [wrap32]
  refine ⟨h, ?_⟩
  rw [h]
  intro hc
  exact absurd (Option.some.inj hc) (by decide)

/-- In a strictly increasing list, every element is at most the last one. -/
lemma pairwise_lt_le_getLast (l : List Int) (h : l.Pairwise (· < ·)) :
    ∀ x ∈ l, ∀ y, l.getLast? = some y → x ≤ y := by
  induction l using List.reverseRecOn with
  | nil => intro x hx; cases hx
  | append_singleton l a ih =>
    intro x hx y hy
    rw [List.getLast?_concat] at hy
    cases hy
    rcases List.mem_append.mp hx with hx | hx
    · exact le_of_lt ((List.pairwise_append.mp h).2.2 x hx a
        (List.mem_singleton.mpr rfl))
    · exact le_of_eq (List.mem_singleton.mp hx)

/-- Setting an index to the value already found there is the identity. -/
lemma set_getElem?_self {α : Type} (l : List α) (k : Nat) (a : α)
    (h : l[k]? = some a) : l.set k a = l := by
  apply List.ext_getElem?
  intro j
  rcases eq_or_ne k j with rfl | hne
  · rw [List.getElem?_set_self', h]
    rfl
  · exact List.getElem?_set_ne hne

/-- A pure-`add` run is reachable. -/
lemma reachable_add_titles (st : TodoList) (titles : List String)
    (now : String) (h : Reachable st) : Reachable (st.add_titles titles now) := by
  induction titles generalizing st with
  | nil => exact h
  | cons t ts ih => exact ih (st.add_task t none now) (Reachable.add st t none now h)

/-- Invariant of overflow-free reachable stores: the ids are strictly
increasing along the sequence and lie in the `i32` range. -/
lemma reachable_no_overflow_invariant (st : TodoList)
    (h : ReachableNoOverflow st) :
    (st.tasks.map Task.id).Pairwise (· < ·) ∧
      ∀ t ∈ st.tasks, -(2 ^ 31) ≤ t.id ∧ t.id < 2 ^ 31 := by
  induction h with
  | new path =>
    exact ⟨List.Pairwise.nil, fun t ht => absurd ht (List.not_mem_nil t)⟩
  | add st title prio now hre hguard ih =>
    obtain ⟨hpw, hrange⟩ := ih
    rw [add_task_tasks, List.map_append]
    cases hl : st.tasks.getLast? with
    | none =>
      have hnil : st.tasks = [] := List.getLast?_eq_none_iff.mp hl
      rw [hnil]
      refine ⟨?_, ?_⟩
      · simp
      · intro t ht
        simp only [List.nil_append, List.mem_singleton] at ht
        rw [ht]
        norm_num
    | some last =>
      have hlast_mem : last ∈ st.tasks := List.mem_of_getLast?_eq_some hl
      have hlast_range := hrange last hlast_mem
      have hguard' := hguard last hl
      have hnew : wrap32 (last.id + 1) = last.id + 1 :=
        wrap32_eq_self _ (by omega) (by omega)
      refine ⟨?_, ?_⟩
      · rw [List.pairwise_append]
        refine ⟨hpw, by simp, ?_⟩
        intro a ha b hb
        simp only [List.map_cons, List.map_nil, List.mem_singleton] at hb
        rw [hb, hnew]
        obtain ⟨x, hx, rfl⟩ := List.mem_map.mp ha
        have hle : x.id ≤ last.id := by
          refine pairwise_lt_le_getLast _ hpw x.id (List.mem_map_of_mem _ hx)
            last.id ?_
          rw [List.getLast?_map, hl]
          rfl
        omega
      · intro t ht
        rcases List.mem_append.mp ht with ht | ht
        · exact hrange t ht
        · rw [List.mem_singleton.mp ht]
          constructor <;> simp only [hnew] <;> omega
  | remove st st' i hre hrem ih =>
    obtain ⟨hpw, hrange⟩ := ih
    rcases (remove_task_result hrem).2 with he | ⟨k, he⟩
    · rw [he]
      exact ⟨hpw, hrange⟩
    · rw [he]
      refine ⟨hpw.sublist ((List.eraseIdx_sublist st.tasks k).map Task.id), ?_⟩
      exact fun t ht => hrange t ((List.eraseIdx_sublist st.tasks k).subset ht)
  | complete st now i hre ih =>
    obtain ⟨hpw, hrange⟩ := ih
    rcases (complete_task_result now st i).2 with he | ⟨index, old, hget, he⟩
    · rw [he]
      exact ⟨hpw, hrange⟩
    · rw [he]
      have hids : (st.tasks.set index
          ({ old with done := true, completed_at := some now })).map Task.id
            = st.tasks.map Task.id := by
        rw [List.map_set]
        exact set_getElem?_self _ _ _
          (by rw [List.getElem?_map, hget]; rfl)
      rw [hids]
      refine ⟨hpw, ?_⟩
      intro t ht
      rcases List.mem_or_eq_of_mem_set ht with hmem | rfl
      · exact hrange t hmem
      · exact hrange old (List.getElem?_mem hget)
  | reset st hre ih =>
    obtain ⟨hpw, hrange⟩ := ih
    unfold TodoList.reset_tasks
    have hids : (st.tasks.map
        (fun task => { task with done := false, completed_at := none })).map
          Task.id = st.tasks.map Task.id := by
      rw [List.map_map]
      rfl
    rw [hids]
    refine ⟨hpw, ?_⟩
    intro t ht
    obtain ⟨x, hx, rfl⟩ := List.mem_map.mp ht
    exact hrange x hx

/-- Claim C7 (amended): in every store reachable from the empty store by
add, remove, complete and reset in which no `add` was ever applied to a
store whose last task carried id `i32::MAX` (so the 32-bit id assignment
never overflowed), the ids are strictly increasing along the sequence and
in particular pairwise distinct.  Without that restriction the claim fails:
`2^32 + 1` consecutive adds produce a duplicated id. -/
theorem reachable_ids_nodup (st : TodoList) (h : ReachableNoOverflow st) :
    (st.tasks.map Task.id).Nodup :=
  ((reachable_no_overflow_invariant st h).1).imp (fun hab => ne_of_lt hab)

/-- Witness for C7: one add on a fresh store is overflow-free and its id
list has no duplicates. -/
theorem reachable_ids_nodup_witness :
    ReachableNoOverflow ((TodoList.new "p").add_task "a" none "n") ∧
      (((TodoList.new "p").add_task "a" none "n").tasks.map Task.id).Nodup :=
  have hr : ReachableNoOverflow ((TodoList.new "p").add_task "a" none "n") :=
    ReachableNoOverflow.add (TodoList.new "p") "a" none "n"
      (ReachableNoOverflow.new "p") (fun _ hl => nomatch hl)
  ⟨hr, reachable_ids_nodup _ hr⟩

/-- Counterexample for C7 as stated: the store built by `2^32 + 1` adds from
empty is reachable, yet its first task and its `2^32 + 1`-th task both
carry id 1 — the 32-bit id wraps around, so the ids are not pairwise
distinct. -/
theorem reachable_duplicate_id_counterexample :
    Reachable overflowStore ∧ ¬ (overflowStore.tasks.map Task.id).Nodup := by
  constructor
  · exact reachable_add_titles _ _ _ (Reachable.new "todo.json")
  · intro hnd
    have hids : overflowStore.tasks.map Task.id
        = (List.range (2 ^ 32 + 1)).map
            (fun j : Nat => wrap32 ((j : Int) + 1)) := by
      have h0 := add_titles_ids "todo.json" "t0"
        (List.replicate (2 ^ 32 + 1) "t")
      rw [List.length_replicate] at h0
      exact h0
    have hlen : (overflowStore.tasks.map Task.id).length = 2 ^ 32 + 1 := by
      rw [hids, List.length_map, List.length_range]
    have h0 : (overflowStore.tasks.map Task.id)[0]? = some 1 := by
      rw [hids, List.getElem?_map, List.getElem?_range (by norm_num)]
      simp only [Option.map_some']
      norm_num [wrap32]
    have hbig : (overflowStore.tasks.map Task.id)[2 ^ 32]? = some 1 := by
      rw [hids, List.getElem?_map, List.getElem?_range (by norm_num)]
      simp only [Option.map_some']
      norm_num [wrap32]
    have hij : (0 : Nat) = 2 ^ 32 :=
      List.getElem?_inj (by omega) hnd (h0.trans hbig.symm)
    norm_num at hij

/-- Claim C3, evaluated at the failing input: a store with one completed and
one pending task.  The source (`src/exporter.rs` lines 66-70) pushes the
`x` when `!task.done`, so the completed task is rendered `- []` (no `x`, no
space) and the pending task `- [x]` — the inverse of the claimed checkbox
convention, which the spec itself names the authoritative contract.  Title,
`created_at` and the conditional `completed_at` suffix are as claimed. -/
theorem markdown_export_inverts_checkbox :
    markdown_export { tasks := [sampleDone, sampleTask], path := "todo.json" }
      = "- [] task 2 - Created at t1 - Completed at t2\n" ++
        "- [x] task 1 - Created at t0\n" := by
  rfl

/-- A serde task value decodes back to the task it encodes. -/
lemma task_round_trip (t : Task) :
    task_from_json (task_to_json t) = some t := by
  rcases t with ⟨id, title, done, created, completed, prio⟩
  rcases completed with _ | c <;> rcases prio with _ | p <;>
    first
    | rfl
    | cases p <;> rfl

/-- A serde task array decodes back to the task list it encodes. -/
lemma tasks_round_trip (ts : List Task) :
    tasks_from_json (ts.map task_to_json) = some ts := by
  induction ts with
  | nil => rfl
  | cons t ts ih =>
    show (do
      let t1 ← task_from_json (task_to_json t)
      let ts1 ← tasks_from_json (ts.map task_to_json)
      some (t1 :: ts1)) = some (t :: ts)
    rw [task_round_trip, ih]
    rfl

/-- Claim C8: saving (the JSON export of the store, written to its bound
path) and loading back from that path yields the same task sequence — the
same length, and elementwise the same title, done flag, `completed_at`
presence and priority (indeed the same tasks), with the path rebound.
This is the JSON format; the other three exporters are write-only. -/
theorem save_load_round_trip (st : TodoList) :
    load_tasks (some (json_export st)) st.path = st ∧
    (load_tasks (some (json_export st)) st.path).tasks.length
      = st.tasks.length ∧
    (load_tasks (some (json_export st)) st.path).tasks.map
        (fun t => (t.title, t.done, t.completed_at.isSome, t.priority))
      = st.tasks.map
        (fun t => (t.title, t.done, t.completed_at.isSome, t.priority)) := by
  have h2 : todolist_from_json (json_export st)
      = some { tasks := st.tasks, path := "" } := by
    show (tasks_from_json (st.tasks.map task_to_json)).map
        (fun ts => ({ tasks := ts, path := "" } : TodoList)) = _
    rw [tasks_round_trip]
    rfl
  have h : load_tasks (some (json_export st)) st.path = st := by
    show (match todolist_from_json (json_export st) with
      | some st1 => ({ tasks := st1.tasks, path := st.path } : TodoList)
      | none => TodoList.new st.path) = st
    rw [h2]
  exact ⟨h, by rw [h], by rw [h]⟩

end TodoCli
